import Mathlib

/-!
Verification development for the voar-monocle reconciliation core
(`controls.py` and `app.py`).

The Python source manipulates pandas DataFrames cell-by-cell; we embed each
relevant column operation as a Lean function over explicit row structures.
Cells that can hold either a string, a float, or a missing value (NaN) are
modelled by `PyVal`.  Library behaviour the source relies on
(`pd.to_datetime`, `pd.to_numeric`, `float(str)` round-trips, Python string
formatting) is embedded for the value shapes the program actually produces,
with comments noting each modelling decision.
-/

/-- ASCII digit character for a small natural number (used to model
Python's rendering of dates and numbers).  Values `≥ 10` never occur at
call sites; they map to a sentinel. -/
def digitChar (n : ℕ) : Char :=
  match n with
  | 0 => '0' | 1 => '1' | 2 => '2' | 3 => '3' | 4 => '4'
  | 5 => '5' | 6 => '6' | 7 => '7' | 8 => '8' | 9 => '9'
  | _ => '*'

/-- Inverse of `digitChar` on ASCII digits. -/
def toDigit (c : Char) : Option ℕ :=
  if c.isDigit then some (c.toNat - 48) else none

/-- Parse a non-empty all-digit character list as a natural number
(most-significant digit first). -/
def parseNatDigits (l : List Char) : Option ℕ :=
  match l with
  | [] => none
  | _ => go 0 l
where
  go (acc : ℕ) : List Char → Option ℕ
    | [] => some acc
    | c :: cs =>
      match toDigit c with
      | some d => go (acc * 10 + d) cs
      | none => none

/-- Two-digit zero-padded rendering (models strftime `%d` / `%m`). -/
def render2 (n : ℕ) : List Char :=
  [digitChar (n / 10), digitChar (n % 10)]

/-- Four-digit zero-padded rendering (models strftime `%Y`). -/
def render4 (n : ℕ) : List Char :=
  [digitChar (n / 1000), digitChar (n / 100 % 10), digitChar (n / 10 % 10), digitChar (n % 10)]

/-- Split a character list on a separator character (like `str.split(sep)`:
`n` separators yield `n+1` groups, possibly empty). -/
def splitOnChar (c : Char) : List Char → List (List Char)
  | [] => [[]]
  | x :: xs =>
    match splitOnChar c xs with
    | [] => [[]]
    | g :: gs => if x = c then [] :: g :: gs else (x :: g) :: gs

/-- Substring test on character lists (models Python's `in` /
`Series.str.contains` with a plain-text pattern). -/
def listContainsSub (pat : List Char) : List Char → Bool
  | [] => pat.isEmpty
  | c :: rest => pat.isPrefixOf (c :: rest) || listContainsSub pat rest

/-- `containsSub s pat` : the string `pat` occurs as a contiguous substring
of `s`. -/
def containsSub (s pat : String) : Bool :=
  listContainsSub pat.data s.data

/-- Calendar date as parsed by the program (time-of-day is discarded by the
source's `strftime('%d.%m.%Y')`). -/
structure Date where
  day : ℕ
  month : ℕ
  year : ℕ
deriving DecidableEq

/-- Day/month/year bounds accepted by the embedded date parsers.  pandas
additionally checks month lengths and its timestamp range; the claims under
study never depend on those finer checks. -/
def validD (d m y : ℕ) : Bool :=
  decide (1 ≤ d) && decide (d ≤ 31) && decide (1 ≤ m) && decide (m ≤ 12) && decide (y ≤ 9999)

/-- Models `.strftime('%d.%m.%Y')` on a timestamp. -/
def strftimeDMY (d : Date) : String :=
  String.mk (render2 d.day ++ '.' :: render2 d.month ++ '.' :: render4 d.year)

/-- Parse `[h, m, s]` time-of-day groups (models strptime `%H:%M:%S`). -/
def parseTimeGroups (l : List Char) : Bool :=
  match splitOnChar ':' l with
  | [h, m, s] =>
    match parseNatDigits h, parseNatDigits m, parseNatDigits s with
    | some hh, some mm, some ss =>
      decide (h.length ≤ 2) && decide (m.length ≤ 2) && decide (s.length ≤ 2) &&
      decide (hh ≤ 23) && decide (mm ≤ 59) && decide (ss ≤ 59)
    | _, _, _ => false
  | _ => false

/-- Parse a `d.m.Y` group triple into day/month/year components with
length checks matching strptime-style matching. -/
def parseDottedGroups (l : List Char) : Option (ℕ × ℕ × ℕ) :=
  match splitOnChar '.' l with
  | [a, b, y] =>
    match parseNatDigits a, parseNatDigits b, parseNatDigits y with
    | some pa, some pb, some py =>
      if a.length ≤ 2 && b.length ≤ 2 && y.length ≤ 4 then some (pa, pb, py) else none
    | _, _, _ => none
  | _ => none

/-- Models `pd.to_datetime(s, format='%d.%m.%Y %H:%M:%S')`: the string must
be a dotted day-first date, one space, and a full time-of-day. -/
def parsePrimaryDMYHMS (s : String) : Option Date :=
  match splitOnChar ' ' s.data with
  | [datePart, timePart] =>
    match parseDottedGroups datePart with
    | some (pa, pb, py) =>
      if validD pa pb py && parseTimeGroups timePart then
        some { day := pa, month := pb, year := py }
      else none
    | none => none
  | _ => none

/-- Parse an ISO `YYYY-MM-DD` character list (accepted by pandas regardless
of the `dayfirst` preference). -/
def parseISO (l : List Char) : Option Date :=
  match splitOnChar '-' l with
  | [y, m, d] =>
    match parseNatDigits y, parseNatDigits m, parseNatDigits d with
    | some py, some pm, some pd =>
      if y.length = 4 && m.length ≤ 2 && d.length ≤ 2 && validD pd pm py then
        some { day := pd, month := pm, year := py }
      else none
    | _, _, _ => none
  | _ => none

/-- Models `pd.to_datetime(s, dayfirst=True)` (dateutil-style inference) on
the date shapes this program produces: ISO dates, and dotted `a.b.Y` dates
preferring `a` as the day and falling back to `a` as the month. -/
def toDatetimeDayfirst (s : String) : Option Date :=
  match parseISO s.data with
  | some d => some d
  | none =>
    match parseDottedGroups s.data with
    | some (pa, pb, py) =>
      if validD pa pb py then some { day := pa, month := pb, year := py }
      else if validD pb pa py then some { day := pb, month := pa, year := py }
      else none
    | none => none

/-- Models `pd.to_datetime(s)` with default (month-first) inference on the
same date shapes: for dotted `a.b.Y`, `a` is preferred as the month and only
falls back to the day position when `a` cannot be a month. -/
def toDatetimeDefault (s : String) : Option Date :=
  match parseISO s.data with
  | some d => some d
  | none =>
    match parseDottedGroups s.data with
    | some (pa, pb, py) =>
      if validD pb pa py then some { day := pb, month := pa, year := py }
      else if validD pa pb py then some { day := pa, month := pb, year := py }
      else none
    | none => none

/-- Embeds `parse_date` from `normalize_bank_data` (controls.py:72-82):
try the exact `%d.%m.%Y %H:%M:%S` format, then a permissive day-first
parse, and finally return the original string unchanged.  Both `except`
arms catch the `ValueError` the parse attempts raise, so the function
never raises. -/
def parse_date (date_str : String) : String :=
  match parsePrimaryDMYHMS date_str with
  | some d => strftimeDMY d
  | none =>
    match toDatetimeDayfirst date_str with
    | some d => strftimeDMY d
    | none => date_str

/-- A pandas cell as this program sees it: a string, a float (modelled as a
rational, since the claims only exercise decimal values), or NaN. -/
inductive PyVal where
  | str : String → PyVal
  | num : ℚ → PyVal
  | nan : PyVal
deriving DecidableEq

/-- Python exception kinds the embedded pipeline can raise. -/
inductive PyErr where
  | typeError
  | valueError
  | keyError
  | indexError
deriving DecidableEq

/-- `mapOpt f l` runs the fallible `f` over `l`, failing as soon as one
element fails (models a column operation that raises on a bad cell). -/
def mapOpt (f : α → Option β) : List α → Option (List β)
  | [] => some []
  | a :: l =>
    match f a, mapOpt f l with
    | some b, some bs => some (b :: bs)
    | _, _ => none

/-- Models `str.replace(',', '')` on each cell. -/
def stripCommas (l : List Char) : List Char :=
  l.filter (fun c => c ≠ ',')

/-- Parse an unsigned decimal literal, `digits`, `digits.digits`,
`.digits` or `digits.` (the shapes `float(...)` accepts that this program
can meet).  The value is built with `mkRat` so that it evaluates by kernel
reduction. -/
def parseUnsignedDec (l : List Char) : Option ℚ :=
  match splitOnChar '.' l with
  | [ip] => (parseNatDigits ip).map (fun n => (n : ℚ))
  | [ip, fp] =>
    if ip.isEmpty && fp.isEmpty then none
    else
      match (if ip.isEmpty then some 0 else parseNatDigits ip),
            (if fp.isEmpty then some 0 else parseNatDigits fp) with
      | some whole, some frac => some (mkRat (whole * 10 ^ fp.length + frac) (10 ^ fp.length))
      | _, _ => none
  | _ => none

/-- Negation of a rational written through `mkRat` (kernel-reducible). -/
def qNeg (q : ℚ) : ℚ := mkRat (-q.num) q.den

/-- Parse a decimal literal with an optional leading minus sign. -/
def parseDec (l : List Char) : Option ℚ :=
  match l with
  | '-' :: rest => (parseUnsignedDec rest).map qNeg
  | _ => parseUnsignedDec l

/-- Embeds the bank amount chain `astype(str).str.replace(',','').astype(float)`
(controls.py:89-90) on one cell.  A float cell round-trips through `str` and
back exactly in Python, so it is mapped to itself; a NaN cell renders as the
string `nan`, which `float` parses back to NaN; an unparsable string raises
`ValueError` (`none`). -/
def normalize_amount : PyVal → Option PyVal
  | PyVal.num q => some (PyVal.num q)
  | PyVal.nan => some PyVal.nan
  | PyVal.str s => (parseDec (stripCommas s.data)).map PyVal.num

/-- Embeds `pd.to_numeric(column, errors='coerce')` (controls.py:45-46) on one
cell: numeric cells pass through, anything unparsable becomes NaN, never an
error. -/
def to_numeric_coerce : PyVal → PyVal
  | PyVal.num q => PyVal.num q
  | PyVal.nan => PyVal.nan
  | PyVal.str s =>
    match parseDec s.data with
    | some q => PyVal.num q
    | none => PyVal.nan

/-- Numeric value a cell contributes to a pandas `.sum()` (NaN is skipped,
i.e. contributes zero). -/
def cellQ : PyVal → ℚ
  | PyVal.num q => q
  | _ => 0

/-- Embeds the normalized-description computation
`''.join(e for e in x.lower() if e.isalnum())` (controls.py:49 and 96). -/
def normKey (s : String) : String :=
  String.mk ((s.data.map Char.toLower).filter Char.isAlphanum)

/-- One row of the bank statement table.  `Posting Date`, `Value Date` and
`Details` are modelled as strings (their CSV form); `Debit`/`Credit` as
cells.  Presentation-only passthrough columns (e.g. `Book Balance`) carry no
logic and are omitted. -/
structure BankRow where
  posting_date : String
  value_date : String
  debit : PyVal
  credit : PyVal
  details : String
  normalized_description : String
deriving DecidableEq

/-- The per-row transformation of `normalize_bank_data` (controls.py:85-96):
date parsing, amount coercion (which raises on an unparsable amount),
`Details` passthrough (already a string here) and the normalized key. -/
def normalize_bank_row (r : BankRow) : Option BankRow :=
  match normalize_amount r.debit, normalize_amount r.credit with
  | some d, some c =>
    some { posting_date := parse_date r.posting_date
           value_date := parse_date r.value_date
           debit := d
           credit := c
           details := r.details
           normalized_description := normKey r.details }
  | _, _ => none

/-- The row filter of controls.py:98: keep rows whose normalized key contains
`ramani` and whose Credit equals exactly `0` (NaN compares unequal). -/
def bankKeep (r : BankRow) : Bool :=
  containsSub r.normalized_description "ramani" && decide (r.credit = PyVal.num 0)

/-- Embeds `normalize_bank_data` (controls.py:55-98): transform every row,
then keep only the filtered rows. -/
def normalize_bank_data (rows : List BankRow) : Option (List BankRow) :=
  (mapOpt normalize_bank_row rows).map (fun normed => normed.filter bankKeep)

/-- One row of the lender (airtable) table.  `ismatched`/`POP` cells are
`Option String` with `none` standing for a null; whether those columns exist
at all is tracked on the table. -/
structure LenderRow where
  created_at : String
  credit : PyVal
  debit : PyVal
  description : String
  normalized_description : String
  ismatched : Option String
  pop : Option String
deriving DecidableEq

/-- The lender table: rows plus presence flags for the optional `ismatched`
and `POP` columns (absent column → any access raises `KeyError`). -/
structure LenderTable where
  rows : List LenderRow
  hasIsmatched : Bool
  hasPOP : Bool
deriving DecidableEq

/-- The per-row transformation of `normalize_lender_data` (controls.py:42-49):
`created_at` is re-parsed by `pd.to_datetime` with default (month-first)
inference — raising on failure — and re-rendered as `dd.mm.yyyy`;
`credit`/`debit` are coerced; the normalized key is recomputed. -/
def normalize_lender_row (r : LenderRow) : Option LenderRow :=
  match toDatetimeDefault r.created_at with
  | some d =>
    some { r with
           created_at := strftimeDMY d
           credit := to_numeric_coerce r.credit
           debit := to_numeric_coerce r.debit
           normalized_description := normKey r.description }
  | none => none

/-- Embeds `normalize_lender_data` (controls.py:25-51). -/
def normalize_lender_data (t : LenderTable) : Option LenderTable :=
  (mapOpt normalize_lender_row t.rows).map (fun rs => { t with rows := rs })

/-- Embeds the default-filling block of app.py:90-94: a `KeyError` from a
missing `ismatched` column aborts before `POP` is filled; a missing `POP`
column aborts after `ismatched` was already filled in place; the exception
is caught either way. -/
def fill_defaults (t : LenderTable) : LenderTable :=
  if t.hasIsmatched then
    let t1 := { t with rows := t.rows.map (fun r => { r with ismatched := some (r.ismatched.getD "Not Checked") }) }
    if t.hasPOP then
      { t1 with rows := t1.rows.map (fun r => { r with pop := some (r.pop.getD "No PoP Provided") }) }
    else t1
  else t

/-- Count summary returned by `get_lender_stats`. -/
structure LenderStats where
  records : ℕ
  matched : ℕ
  unmatched : ℕ
  hasPoPCount : ℕ
  noPoPCount : ℕ
deriving DecidableEq

/-- Formatted credit/debit sums returned by `get_lender_stats`. -/
structure LenderCreditDebit where
  credit_amount : String
  debit_amount : String
deriving DecidableEq

/-- Models Python's locale-free `f"{value:.2f}"` rounding: the number of
cents, rounding `100 * value` to the nearest integer with ties to even (the
rounding `format` applies).  Computed on numerator/denominator so that it
evaluates by kernel reduction. -/
def centsHalfEven (value : ℚ) : ℤ :=
  let n := value.num * 100
  let d : ℤ := (value.den : ℤ)
  let f := n.fdiv d
  let r2 := 2 * (n - f * d)
  if r2 < d then f
  else if d < r2 then f + 1
  else if f % 2 = 0 then f else f + 1

/-- Insert a comma after every third character counting from the least
significant end (input is least-significant-digit first). -/
def insertCommasLSB : List Char → List Char
  | a :: b :: c :: d :: rest => a :: b :: c :: ',' :: insertCommasLSB (d :: rest)
  | l => l

/-- Base-10 digits of `n`, least significant first, with explicit fuel so
that the kernel can evaluate it (`natDigitsLSB` supplies `n` itself as
fuel). -/
def natDigitsAux : ℕ → ℕ → List ℕ
  | 0, _ => []
  | fuel + 1, n => if n = 0 then [] else n % 10 :: natDigitsAux fuel (n / 10)

/-- Base-10 digits of `n`, least significant first (`[]` for `0`). -/
def natDigitsLSB (n : ℕ) : List ℕ :=
  natDigitsAux n n

/-- Digits of `n`, least significant first, as characters (`0` gives `['0']`). -/
def natDigitChars (n : ℕ) : List Char :=
  if n = 0 then ['0'] else (natDigitsLSB n).map digitChar

/-- Embeds `format_currency` (controls.py:4-22): Python's `f"{value:,.2f}"`
— two decimals, comma thousands grouping, no locale dependence — prefixed
with the fixed token `TSh`. -/
def format_currency (value : ℚ) : String :=
  let cents := centsHalfEven value
  let n := cents.natAbs
  let intPart := String.mk (insertCommasLSB (natDigitChars (n / 100))).reverse
  let fracPart := String.mk (render2 (n % 100))
  "TSh " ++ (if cents < 0 then "-" else "") ++ intPart ++ "." ++ fracPart

/-- Kernel-reducible rational addition (`Rat.add` is `@[irreducible]`);
`qAdd_eq` below identifies it with `+`. -/
def qAdd (a b : ℚ) : ℚ :=
  mkRat (a.num * (b.den : ℤ) + b.num * (a.den : ℤ)) (a.den * b.den)

/-- Sum of a list of rationals via `qAdd` (models pandas `.sum()`). -/
def qSum (l : List ℚ) : ℚ :=
  l.foldr qAdd 0

/-- Embeds `get_lender_stats` (controls.py:102-124).  Each column access on
an absent `ismatched`/`POP` column raises `KeyError`; with the columns
present it returns the counts and the currency-formatted sums of the
non-null credit/debit cells.  The `PoP` count uses `!=`, under which a null
compares unequal, as in pandas. -/
def get_lender_stats (t : LenderTable) : Except PyErr (LenderStats × LenderCreditDebit) :=
  if ¬ t.hasIsmatched then Except.error PyErr.keyError
  else if ¬ t.hasPOP then Except.error PyErr.keyError
  else
    let total_credit := qSum ((t.rows.filter (fun r => r.credit ≠ PyVal.nan)).map (fun r => cellQ r.credit))
    let total_debit := qSum ((t.rows.filter (fun r => r.debit ≠ PyVal.nan)).map (fun r => cellQ r.debit))
    Except.ok
      ({ records := t.rows.length
         matched := (t.rows.filter (fun r => r.ismatched = some "checked")).length
         unmatched := (t.rows.filter (fun r => r.ismatched = some "Not Checked")).length
         hasPoPCount := (t.rows.filter (fun r => r.pop ≠ some "No PoP Provided")).length
         noPoPCount := (t.rows.filter (fun r => r.pop = some "No PoP Provided")).length },
       { credit_amount := format_currency total_credit
         debit_amount := format_currency total_debit })

/-- Count/date summary returned by `get_bank_stats`. -/
structure BankStats where
  records : ℕ
  fromDate : String
  toDate : String
deriving DecidableEq

/-- Formatted credit/debit sums returned by `get_bank_stats`. -/
structure BankCreditDebit where
  credit : String
  debit : String
deriving DecidableEq

/-- Embeds `get_bank_stats` (controls.py:127-150): `From`/`To` are the
`Posting Date` of the first and last row (`iloc[0]` / `iloc[-1]`, which
raise `IndexError` on an empty table), and the credit/debit sums are
formatted as currency. -/
def get_bank_stats (rows : List BankRow) : Except PyErr (BankStats × BankCreditDebit) :=
  match rows with
  | [] => Except.error PyErr.indexError
  | r :: rs =>
    Except.ok
      ({ records := (r :: rs).length
         fromDate := r.posting_date
         toDate := ((r :: rs).getLast (List.cons_ne_nil r rs)).posting_date },
       { credit := format_currency (qSum ((r :: rs).map (fun x => cellQ x.credit)))
         debit := format_currency (qSum ((r :: rs).map (fun x => cellQ x.debit))) })

/-- Embeds `check_missing_from_lender` (controls.py:154-172): it returns the
single table of bank rows whose `normalized_description` is absent from the
lender's `normalized_description` column (`~isin`), and nothing else. -/
def check_missing_from_lender (bank_statement : List BankRow) (lender_statement : List LenderRow) :
    List BankRow :=
  bank_statement.filter
    (fun r => ¬ (lender_statement.map (fun l => l.normalized_description)).contains r.normalized_description)

/-- Embeds `get_lender_df_by_column_and_value` (controls.py:175-187) for the
two string columns it is called with. -/
def get_lender_df_by_column_and_value (column_name : String) (value : String)
    (t : LenderTable) : List LenderRow :=
  if column_name = "POP" then t.rows.filter (fun r => r.pop = some value)
  else if column_name = "ismatched" then t.rows.filter (fun r => r.ismatched = some value)
  else []

/-- The parameter list of `normalize_bank_data` (controls.py:55). -/
def normalize_bank_data_params : List String := ["bank_df"]

/-- A Python keyword call of `normalize_bank_data`: an unexpected keyword
argument raises `TypeError` before the function body runs; otherwise the
body runs (its own `ValueError` on a bad amount propagates). -/
def call_normalize_bank_data (chunk : List BankRow) (kwargs : List String) :
    Except PyErr (List BankRow) :=
  if kwargs.all (fun k => normalize_bank_data_params.contains k) then
    match normalize_bank_data chunk with
    | some out => Except.ok out
    | none => Except.error PyErr.valueError
  else Except.error PyErr.typeError

/-- `mapExc` runs a fallible step over a list, stopping at the first raised
exception (the loop over CSV chunks). -/
def mapExc (f : α → Except PyErr β) : List α → Except PyErr (List β)
  | [] => Except.ok []
  | a :: l =>
    match f a with
    | Except.error e => Except.error e
    | Except.ok b =>
      match mapExc f l with
      | Except.error e => Except.error e
      | Except.ok bs => Except.ok (b :: bs)

/-- Embeds `process_large_csv` (app.py:31-45) after decoding: the input is
the chunk sequence the CSV reader yields; each chunk is passed to
`normalize_bank_data` with the keyword arguments `bank_df` and `needle`
(app.py:36; the latin fallback at app.py:42 passes `needle` as well), and
the results are concatenated.  `pd.concat` on an empty chunk list raises
`ValueError`. -/
def process_large_csv (chunks : List (List BankRow)) : Except PyErr (List BankRow) :=
  if chunks.isEmpty then Except.error PyErr.valueError
  else
    (mapExc (fun c => call_normalize_bank_data c ["bank_df", "needle"]) chunks).map List.flatten

/-! ### Concrete tables used by witnesses and counterexamples -/

/-- A raw bank row for an in-scope payment (Credit 0, counterparty marker in
`Details`). -/
def rawKeep : BankRow :=
  { posting_date := "01.03.2024 10:00:00", value_date := "01.03.2024 10:00:00",
    debit := PyVal.str "1,000", credit := PyVal.str "0",
    details := "RAMANI PAYMENT JAN", normalized_description := "" }

/-- `rawKeep` after bank-side normalization. -/
def normKeep : BankRow :=
  { posting_date := "01.03.2024", value_date := "01.03.2024",
    debit := PyVal.num 1000, credit := PyVal.num 0,
    details := "RAMANI PAYMENT JAN", normalized_description := "ramanipaymentjan" }

/-- A raw bank row with a nonzero Credit (dropped by the filter). -/
def rawDrop : BankRow :=
  { posting_date := "02.03.2024 09:00:00", value_date := "02.03.2024 09:00:00",
    debit := PyVal.str "0", credit := PyVal.str "50",
    details := "RAMANI FEB", normalized_description := "" }

/-- `rawDrop` after the per-row transformation (it is then filtered out). -/
def normDrop : BankRow :=
  { posting_date := "02.03.2024", value_date := "02.03.2024",
    debit := PyVal.num 0, credit := PyVal.num 50,
    details := "RAMANI FEB", normalized_description := "ramanifeb" }

/-- A normalized bank row whose key is absent from `lenderMatchRow`. -/
def normMissing : BankRow :=
  { posting_date := "03.03.2024", value_date := "03.03.2024",
    debit := PyVal.num 500, credit := PyVal.num 0,
    details := "RAMANI MARCH", normalized_description := "ramanimarch" }

/-- A normalized lender row sharing `normKeep`'s key. -/
def lenderMatchRow : LenderRow :=
  { created_at := "05.03.2024", credit := PyVal.num 200, debit := PyVal.num 0,
    description := "Ramani Payment Jan!", normalized_description := "ramanipaymentjan",
    ismatched := some "checked", pop := some "given" }

/-- A raw lender row whose `created_at` is an ISO date. -/
def rawLender : LenderRow :=
  { created_at := "2024-03-05", credit := PyVal.str "200", debit := PyVal.str "0",
    description := "Ramani Payment Jan!", normalized_description := "",
    ismatched := some "checked", pop := some "given" }

/-- A lender table whose `ismatched` column is absent. -/
def lenderTableNoIsmatched : LenderTable :=
  { rows := [{ created_at := "05.03.2024", credit := PyVal.num 200, debit := PyVal.num 0,
               description := "x", normalized_description := "x",
               ismatched := none, pop := some "given" }],
    hasIsmatched := false, hasPOP := true }

/-- A lender table whose `POP` column is absent. -/
def lenderTableNoPOP : LenderTable :=
  { rows := [{ created_at := "05.03.2024", credit := PyVal.num 200, debit := PyVal.num 0,
               description := "x", normalized_description := "x",
               ismatched := some "checked", pop := none }],
    hasIsmatched := true, hasPOP := false }

/-- `lenderMatchRow` after a second normalization pass: the month-first
re-parse of `05.03.2024` swaps day and month. -/
def lenderSwapRow : LenderRow :=
  { lenderMatchRow with created_at := "03.05.2024" }

/-- A raw lender row whose day component (25) cannot be a month. -/
def rawLenderSafe : LenderRow :=
  { rawLender with created_at := "2024-03-25" }

/-- `rawLenderSafe` after lender-side normalization. -/
def lenderSafeNorm : LenderRow :=
  { lenderMatchRow with created_at := "25.03.2024" }

/-- One-row lender table built from `rawLenderSafe`. -/
def lenderSafeTable : LenderTable :=
  { rows := [rawLenderSafe], hasIsmatched := true, hasPOP := true }

/-- `lenderSafeTable` after normalization. -/
def lenderSafeOut : LenderTable :=
  { rows := [lenderSafeNorm], hasIsmatched := true, hasPOP := true }

/-- Chronological key of a normalized date string (year, then month, then
day); unparsable strings sort first.  Used to state what `earliest` and
`latest` mean for the `From`/`To` fields of the bank statistics. -/
def dateKeyStr (s : String) : ℕ :=
  match toDatetimeDayfirst s with
  | some d => (d.year * 100 + d.month) * 100 + d.day
  | none => 0

/-- The bank rows are in ascending `Posting Date` order. -/
def sortedByPostingDate (rows : List BankRow) : Prop :=
  List.Pairwise (fun a b => dateKeyStr a.posting_date ≤ dateKeyStr b.posting_date) rows

/-- A normalized bank row dated 2 January (placed first in the
counterexample table). -/
def bankRowJan2 : BankRow :=
  { posting_date := "02.01.2024", value_date := "02.01.2024",
    debit := PyVal.num 10, credit := PyVal.num 0,
    details := "RAMANI A", normalized_description := "ramania" }

/-- A normalized bank row dated 1 January (placed second, out of order). -/
def bankRowJan1 : BankRow :=
  { posting_date := "01.01.2024", value_date := "01.01.2024",
    debit := PyVal.num 20, credit := PyVal.num 0,
    details := "RAMANI B", normalized_description := "ramanib" }

/-- Check the comma groups of a least-significant-first digit string:
every group is three digits, except the last (leftmost) which has one to
three. -/
def groupsOk : List (List Char) → Bool
  | [] => false
  | [g] => !g.isEmpty && decide (g.length ≤ 3) && g.all Char.isDigit
  | g :: gs => decide (g.length = 3) && g.all Char.isDigit && groupsOk gs

/-- A most-significant-first digit string is well grouped when its
reversal splits on commas into valid groups. -/
def wellGrouped (msb : List Char) : Bool :=
  groupsOk (splitOnChar ',' msb.reverse)

/-! ### General lemmas -/

theorem mapOpt_append {f : α → Option β} {l₁ l₂ : List α} {b₁ b₂ : List β}
    (h₁ : mapOpt f l₁ = some b₁) (h₂ : mapOpt f l₂ = some b₂) :
    mapOpt f (l₁ ++ l₂) = some (b₁ ++ b₂) := by
  induction l₁ generalizing b₁ with
  | nil =>
    simp [mapOpt] at h₁
    simp [h₁, h₂]
  | cons a l ih =>
    simp only [mapOpt] at h₁ ⊢
    cases hfa : f a with
    | none => rw [hfa] at h₁; simp at h₁
    | some b =>
      rw [hfa] at h₁
      cases hml : mapOpt f l with
      | none => rw [hml] at h₁; simp at h₁
      | some bs =>
        rw [hml] at h₁
        simp at h₁
        rw [List.append_eq, ih hml]
        simp [← h₁]

theorem normalize_bank_data_append {l₁ l₂ p₁ p₂ : List BankRow}
    (h₁ : normalize_bank_data l₁ = some p₁) (h₂ : normalize_bank_data l₂ = some p₂) :
    normalize_bank_data (l₁ ++ l₂) = some (p₁ ++ p₂) := by
  unfold normalize_bank_data at h₁ h₂ ⊢
  cases hm₁ : mapOpt normalize_bank_row l₁ with
  | none => rw [hm₁] at h₁; simp at h₁
  | some n₁ =>
    cases hm₂ : mapOpt normalize_bank_row l₂ with
    | none => rw [hm₂] at h₂; simp at h₂
    | some n₂ =>
      rw [hm₁] at h₁; rw [hm₂] at h₂
      simp at h₁ h₂
      rw [mapOpt_append hm₁ hm₂]
      simp [List.filter_append, h₁, h₂]

theorem normalize_bank_data_nil : normalize_bank_data [] = some [] := rfl

/-! ### Claim theorems -/

/-- C10: for every input that yields at least one CSV chunk,
`process_large_csv` raises `TypeError` before producing any normalized
output, because it calls `normalize_bank_data` with the unexpected keyword
argument `needle`. -/
theorem C10_process_large_csv_type_error (chunks : List (List BankRow))
    (h : chunks ≠ []) : process_large_csv chunks = Except.error PyErr.typeError := by
  cases chunks with
  | nil => exact absurd rfl h
  | cons c cs => rfl

/-- Witness for C10 at a concrete one-chunk input. -/
theorem C10_process_large_csv_type_error_witness :
    process_large_csv [[rawKeep]] = Except.error PyErr.typeError :=
  C10_process_large_csv_type_error [[rawKeep]] (by decide)

/-- C3: the intended chunked processing — normalize each chunk with the
actual `normalize_bank_data` and concatenate in chunk order — agrees with
normalizing the whole input at once, each row contributing exactly once.
(The shipped `process_large_csv` never reaches this point: it raises
`TypeError` on the `needle` keyword, see `C10`.) -/
theorem C3_chunked_normalization_eq_whole (chunks : List (List BankRow))
    (parts : List (List BankRow))
    (h : mapOpt normalize_bank_data chunks = some parts) :
    normalize_bank_data chunks.flatten = some parts.flatten := by
  induction chunks generalizing parts with
  | nil =>
    simp [mapOpt] at h
    subst h
    rfl
  | cons c cs ih =>
    simp only [mapOpt] at h
    cases hc : normalize_bank_data c with
    | none => rw [hc] at h; simp at h
    | some p =>
      rw [hc] at h
      cases hcs : mapOpt normalize_bank_data cs with
      | none => rw [hcs] at h; simp at h
      | some ps =>
        rw [hcs] at h
        simp at h
        subst h
        simpa using normalize_bank_data_append hc (ih ps hcs)

/-- Witness for C3 at a concrete two-chunk input. -/
theorem C3_chunked_normalization_eq_whole_witness :
    mapOpt normalize_bank_data [[rawKeep], [rawDrop]] = some [[normKeep], []] ∧
    normalize_bank_data ([[rawKeep], [rawDrop]] : List (List BankRow)).flatten =
      some ([[normKeep], []] : List (List BankRow)).flatten :=
  ⟨by decide, C3_chunked_normalization_eq_whole _ _ (by decide)⟩

/-- C1: evaluating `check_missing_from_lender` at a concrete bank/lender
pair: it returns the single table of key-absent bank rows (here
`normMissing`), and no `matching_records` component — the partition the
claim describes is never produced (app.py:129 unpacks this single frame
and fails). -/
theorem C1_check_missing_single_table :
    check_missing_from_lender [normKeep, normMissing] [lenderMatchRow] = [normMissing] := by
  decide

/-- C5: a lender table with the `ismatched` column absent: the default-fill
step catches its `KeyError` and leaves the table as is, but
`get_lender_stats` then raises an uncaught `KeyError`, so the statistics
are never produced; likewise when only `POP` is absent. -/
theorem C5_missing_column_stats_key_error :
    get_lender_stats (fill_defaults lenderTableNoIsmatched) = Except.error PyErr.keyError ∧
    get_lender_stats (fill_defaults lenderTableNoPOP) = Except.error PyErr.keyError := by
  exact ⟨rfl, rfl⟩

/-- C2: a transformed bank row is retained by `normalize_bank_data` exactly
when its normalized key contains `ramani` and its Credit is exactly `0`;
all other rows are dropped. -/
theorem C2_bank_filter_exact (rows normed : List BankRow) (r : BankRow)
    (h : mapOpt normalize_bank_row rows = some normed) :
    normalize_bank_data rows = some (normed.filter bankKeep) ∧
    (r ∈ normed.filter bankKeep ↔
      r ∈ normed ∧ containsSub r.normalized_description "ramani" = true ∧ r.credit = PyVal.num 0) := by
  constructor
  · unfold normalize_bank_data
    rw [h]
    rfl
  · simp [List.mem_filter, bankKeep, Bool.and_eq_true, decide_eq_true_eq, and_assoc]

/-- Witness for C2: the Credit-0 marker row is kept, at a concrete input
containing one kept and one dropped row. -/
theorem C2_bank_filter_exact_witness :
    normalize_bank_data [rawKeep, rawDrop] = some ([normKeep, normDrop].filter bankKeep) ∧
    (normKeep ∈ [normKeep, normDrop].filter bankKeep ↔
      normKeep ∈ [normKeep, normDrop] ∧
      containsSub normKeep.normalized_description "ramani" = true ∧
      normKeep.credit = PyVal.num 0) :=
  C2_bank_filter_exact [rawKeep, rawDrop] [normKeep, normDrop] normKeep (by decide)

/-- C4: `parse_date` never raises: for every date cell it either returns the
primary-format parse, or — when that fails — the permissive day-first
parse, or — when both fail — the original string unchanged. -/
theorem C4_parse_date_cascade (s : String) :
    (∃ d, parsePrimaryDMYHMS s = some d ∧ parse_date s = strftimeDMY d) ∨
    (parsePrimaryDMYHMS s = none ∧
      ((∃ d, toDatetimeDayfirst s = some d ∧ parse_date s = strftimeDMY d) ∨
        (toDatetimeDayfirst s = none ∧ parse_date s = s))) := by
  unfold parse_date
  cases hp : parsePrimaryDMYHMS s with
  | some d => exact Or.inl ⟨d, rfl, rfl⟩
  | none =>
    refine Or.inr ⟨rfl, ?_⟩
    cases hf : toDatetimeDayfirst s with
    | some d => exact Or.inl ⟨d, rfl, rfl⟩
    | none => exact Or.inr ⟨rfl, rfl⟩

/-! ### Digit and splitting lemmas -/

theorem toDigit_digitChar {k : ℕ} (h : k < 10) : toDigit (digitChar k) = some k := by
  interval_cases k <;> decide

theorem digitChar_ne_dot (k : ℕ) : digitChar k ≠ '.' := by
  unfold digitChar; split <;> decide

theorem digitChar_ne_space (k : ℕ) : digitChar k ≠ ' ' := by
  unfold digitChar; split <;> decide

theorem digitChar_ne_dash (k : ℕ) : digitChar k ≠ '-' := by
  unfold digitChar; split <;> decide

theorem digitChar_ne_comma (k : ℕ) : digitChar k ≠ ',' := by
  unfold digitChar; split <;> decide

theorem digitChar_isDigit {k : ℕ} (h : k < 10) : (digitChar k).isDigit = true := by
  interval_cases k <;> decide

theorem parseNatDigits_render2 {n : ℕ} (h : n < 100) :
    parseNatDigits (render2 n) = some n := by
  have h1 : n / 10 < 10 := by omega
  have h2 : n % 10 < 10 := Nat.mod_lt _ (by norm_num)
  simp [parseNatDigits, render2, parseNatDigits.go, toDigit_digitChar h1, toDigit_digitChar h2]
  omega

theorem parseNatDigits_render4 {n : ℕ} (h : n < 10000) :
    parseNatDigits (render4 n) = some n := by
  have h1 : n / 1000 < 10 := by omega
  have h2 : n / 100 % 10 < 10 := Nat.mod_lt _ (by norm_num)
  have h3 : n / 10 % 10 < 10 := Nat.mod_lt _ (by norm_num)
  have h4 : n % 10 < 10 := Nat.mod_lt _ (by norm_num)
  simp [parseNatDigits, render4, parseNatDigits.go, toDigit_digitChar h1, toDigit_digitChar h2,
    toDigit_digitChar h3, toDigit_digitChar h4]
  omega

theorem splitOnChar_of_not_mem {c : Char} {l : List Char} (h : c ∉ l) :
    splitOnChar c l = [l] := by
  induction l with
  | nil => rfl
  | cons x xs ih =>
    have hx : x ≠ c := fun hxc => h (hxc ▸ List.mem_cons_self x xs)
    have hxs : c ∉ xs := fun hm => h (List.mem_cons_of_mem x hm)
    simp [splitOnChar, ih hxs, hx]

theorem splitOnChar_ne_nil (c : Char) (l : List Char) : splitOnChar c l ≠ [] := by
  cases l with
  | nil => simp [splitOnChar]
  | cons x xs =>
    simp only [splitOnChar]
    cases splitOnChar c xs with
    | nil => simp
    | cons g gs =>
      by_cases hx : x = c <;> simp [hx]

theorem splitOnChar_append {c : Char} {xs ys : List Char} (h : c ∉ xs) :
    splitOnChar c (xs ++ c :: ys) = xs :: splitOnChar c ys := by
  induction xs with
  | nil =>
    simp only [List.nil_append, splitOnChar]
    cases hsp : splitOnChar c ys with
    | nil => exact absurd hsp (splitOnChar_ne_nil c ys)
    | cons g gs => simp [← hsp]
  | cons x xs ih =>
    have hx : x ≠ c := fun hxc => h (hxc ▸ List.mem_cons_self x xs)
    have hxs : c ∉ xs := fun hm => h (List.mem_cons_of_mem x hm)
    simp only [List.cons_append, splitOnChar, List.append_eq]
    rw [ih hxs]
    simp [hx]

theorem validD_spec {d m y : ℕ} (h : validD d m y = true) :
    1 ≤ d ∧ d ≤ 31 ∧ 1 ≤ m ∧ m ≤ 12 ∧ y ≤ 9999 := by
  simp [validD] at h
  omega

theorem not_mem_render2 {c : Char} (h : ∀ k, digitChar k ≠ c) (n : ℕ) : c ∉ render2 n := by
  intro hmem
  simp [render2] at hmem
  rcases hmem with he | he
  · exact h _ he.symm
  · exact h _ he.symm

theorem not_mem_render4 {c : Char} (h : ∀ k, digitChar k ≠ c) (n : ℕ) : c ∉ render4 n := by
  intro hmem
  simp [render4] at hmem
  rcases hmem with he | he | he | he <;> exact h _ he.symm

theorem not_mem_strftime {c : Char} (hd : ∀ k, digitChar k ≠ c) (hdot : c ≠ '.')
    (dd : Date) : c ∉ (strftimeDMY dd).data := by
  intro hmem
  have hmem' : c ∈ render2 dd.day ++ '.' :: (render2 dd.month ++ '.' :: render4 dd.year) := hmem
  rcases List.mem_append.mp hmem' with h | h
  · exact not_mem_render2 hd _ h
  rcases List.mem_cons.mp h with h | h
  · exact hdot h
  rcases List.mem_append.mp h with h | h
  · exact not_mem_render2 hd _ h
  rcases List.mem_cons.mp h with h | h
  · exact hdot h
  · exact not_mem_render4 hd _ h

theorem parsePrimary_strftime_none (d : Date) :
    parsePrimaryDMYHMS (strftimeDMY d) = none := by
  unfold parsePrimaryDMYHMS
  rw [splitOnChar_of_not_mem (not_mem_strftime digitChar_ne_space (by decide) d)]

theorem parseISO_strftime_none (d : Date) :
    parseISO (strftimeDMY d).data = none := by
  unfold parseISO
  rw [splitOnChar_of_not_mem (not_mem_strftime digitChar_ne_dash (by decide) d)]

theorem parseDottedGroups_strftime (d : Date) (h : validD d.day d.month d.year = true) :
    parseDottedGroups (strftimeDMY d).data = some (d.day, d.month, d.year) := by
  obtain ⟨h1, h2, h3, h4, h5⟩ := validD_spec h
  have hsplit : splitOnChar '.' (strftimeDMY d).data =
      [render2 d.day, render2 d.month, render4 d.year] := by
    show splitOnChar '.' (render2 d.day ++ '.' :: (render2 d.month ++ '.' :: render4 d.year)) = _
    rw [splitOnChar_append (not_mem_render2 digitChar_ne_dot d.day),
      splitOnChar_append (not_mem_render2 digitChar_ne_dot d.month),
      splitOnChar_of_not_mem (not_mem_render4 digitChar_ne_dot d.year)]
  have e1 : parseNatDigits (render2 d.day) = some d.day := parseNatDigits_render2 (by omega)
  have e2 : parseNatDigits (render2 d.month) = some d.month := parseNatDigits_render2 (by omega)
  have e3 : parseNatDigits (render4 d.year) = some d.year := parseNatDigits_render4 (by omega)
  have l1 : (render2 d.day).length = 2 := rfl
  have l2 : (render2 d.month).length = 2 := rfl
  have l3 : (render4 d.year).length = 4 := rfl
  simp [parseDottedGroups, hsplit, e1, e2, e3, l1, l2, l3]

theorem toDatetimeDayfirst_strftime (d : Date) (h : validD d.day d.month d.year = true) :
    toDatetimeDayfirst (strftimeDMY d) = some d := by
  unfold toDatetimeDayfirst
  simp [parseISO_strftime_none, parseDottedGroups_strftime d h, h]

theorem toDatetimeDefault_strftime (d : Date) (h : validD d.day d.month d.year = true)
    (hcond : 12 < d.day ∨ d.day = d.month) :
    toDatetimeDefault (strftimeDMY d) = some d := by
  obtain ⟨h1, h2, h3, h4, h5⟩ := validD_spec h
  unfold toDatetimeDefault
  rcases hcond with hgt | heq
  · have hfalse : validD d.month d.day d.year = false := by
      simp [validD]
      omega
    simp [parseISO_strftime_none, parseDottedGroups_strftime d h, hfalse, h]
  · have hswap : validD d.month d.day d.year = true := by
      simp [validD] at h ⊢
      omega
    obtain ⟨dd, mm, yy⟩ := d
    simp only at heq
    subst heq
    simp [parseISO_strftime_none, parseDottedGroups_strftime ⟨dd, dd, yy⟩ h, hswap]

theorem parsePrimary_valid {s : String} {d : Date} (h : parsePrimaryDMYHMS s = some d) :
    validD d.day d.month d.year = true := by
  unfold parsePrimaryDMYHMS at h
  split at h
  · split at h
    · rename_i pa pb py hg
      split at h
      · rename_i hcond
        simp only [Bool.and_eq_true] at hcond
        simp only [Option.some.injEq] at h
        rw [← h]
        exact hcond.1
      · simp at h
    · simp at h
  · simp at h

theorem parseISO_valid {l : List Char} {d : Date} (h : parseISO l = some d) :
    validD d.day d.month d.year = true := by
  unfold parseISO at h
  split at h
  · split at h
    · rename_i py pm pd hy hm hd
      split at h
      · rename_i hcond
        simp only [Bool.and_eq_true, decide_eq_true_eq] at hcond
        simp only [Option.some.injEq] at h
        rw [← h]
        exact hcond.2
      · simp at h
    · simp at h
  · simp at h

theorem toDatetimeDayfirst_valid {s : String} {d : Date}
    (h : toDatetimeDayfirst s = some d) : validD d.day d.month d.year = true := by
  unfold toDatetimeDayfirst at h
  split at h
  · rename_i d' hiso
    simp only [Option.some.injEq] at h
    rw [← h]
    exact parseISO_valid hiso
  · split at h
    · rename_i pa pb py hg
      split at h
      · rename_i hv
        simp only [Option.some.injEq] at h
        rw [← h]
        exact hv
      · split at h
        · rename_i hv
          simp only [Option.some.injEq] at h
          rw [← h]
          exact hv
        · simp at h
    · simp at h

theorem toDatetimeDefault_valid {s : String} {d : Date}
    (h : toDatetimeDefault s = some d) : validD d.day d.month d.year = true := by
  unfold toDatetimeDefault at h
  split at h
  · rename_i d' hiso
    simp only [Option.some.injEq] at h
    rw [← h]
    exact parseISO_valid hiso
  · split at h
    · rename_i pa pb py hg
      split at h
      · rename_i hv
        simp only [Option.some.injEq] at h
        rw [← h]
        exact hv
      · split at h
        · rename_i hv
          simp only [Option.some.injEq] at h
          rw [← h]
          exact hv
        · simp at h
    · simp at h

theorem parse_date_idem (s : String) : parse_date (parse_date s) = parse_date s := by
  cases hp : parsePrimaryDMYHMS s with
  | some d =>
    have hv := parsePrimary_valid hp
    have hs : parse_date s = strftimeDMY d := by unfold parse_date; rw [hp]
    rw [hs]
    unfold parse_date
    rw [parsePrimary_strftime_none, toDatetimeDayfirst_strftime d hv]
  | none =>
    cases hf : toDatetimeDayfirst s with
    | some d =>
      have hv := toDatetimeDayfirst_valid hf
      have hs : parse_date s = strftimeDMY d := by unfold parse_date; rw [hp, hf]
      rw [hs]
      unfold parse_date
      rw [parsePrimary_strftime_none, toDatetimeDayfirst_strftime d hv]
    | none =>
      have hs : parse_date s = s := by unfold parse_date; rw [hp, hf]
      rw [hs, hs]

/-! ### Idempotence lemmas -/

theorem normalize_amount_idem {c v : PyVal} (h : normalize_amount c = some v) :
    normalize_amount v = some v := by
  cases c with
  | num q => simp [normalize_amount] at h; subst h; rfl
  | nan => simp [normalize_amount] at h; subst h; rfl
  | str s =>
    simp only [normalize_amount] at h
    cases hp : parseDec (stripCommas s.data) with
    | none => rw [hp] at h; simp at h
    | some q =>
      rw [hp] at h
      simp at h
      subst h
      rfl

theorem to_numeric_coerce_idem (c : PyVal) :
    to_numeric_coerce (to_numeric_coerce c) = to_numeric_coerce c := by
  cases c with
  | num q => rfl
  | nan => rfl
  | str s =>
    cases hp : parseDec s.data with
    | none => simp [to_numeric_coerce, hp]
    | some q => simp [to_numeric_coerce, hp]

theorem mapOpt_mem_ex {f : α → Option β} {l : List α} {out : List β}
    (h : mapOpt f l = some out) : ∀ x ∈ out, ∃ a ∈ l, f a = some x := by
  induction l generalizing out with
  | nil =>
    simp [mapOpt] at h
    subst h
    intro x hx
    simp at hx
  | cons a l ih =>
    simp only [mapOpt] at h
    cases hfa : f a with
    | none => rw [hfa] at h; simp at h
    | some b =>
      rw [hfa] at h
      cases hml : mapOpt f l with
      | none => rw [hml] at h; simp at h
      | some bs =>
        rw [hml] at h
        simp at h
        subst h
        intro x hx
        rcases List.mem_cons.mp hx with hxb | hxs
        · exact ⟨a, List.mem_cons_self a l, hxb ▸ hfa⟩
        · obtain ⟨a', ha', hfa'⟩ := ih hml x hxs
          exact ⟨a', List.mem_cons_of_mem a ha', hfa'⟩

theorem mapOpt_fixed {f : α → Option α} {l : List α}
    (hfix : ∀ x ∈ l, f x = some x) : mapOpt f l = some l := by
  induction l with
  | nil => rfl
  | cons a l ih =>
    simp only [mapOpt]
    rw [hfix a (List.mem_cons_self a l), ih (fun x hx => hfix x (List.mem_cons_of_mem a hx))]

theorem normalize_bank_row_idem {r nr : BankRow} (h : normalize_bank_row r = some nr) :
    normalize_bank_row nr = some nr := by
  unfold normalize_bank_row at h
  split at h
  · rename_i dbt cdt hdbt hcdt
    simp only [Option.some.injEq] at h
    subst h
    simp [normalize_bank_row, normalize_amount_idem hdbt, normalize_amount_idem hcdt,
      parse_date_idem]
  · simp at h

theorem normalize_bank_data_idem {rows out : List BankRow}
    (h : normalize_bank_data rows = some out) : normalize_bank_data out = some out := by
  unfold normalize_bank_data at h ⊢
  cases hm : mapOpt normalize_bank_row rows with
  | none => rw [hm] at h; simp at h
  | some normed =>
    rw [hm] at h
    simp only [Option.map_some'] at h
    have hout : out = normed.filter bankKeep := by
      cases h
      rfl
    have hfix : ∀ x ∈ out, normalize_bank_row x = some x := by
      intro x hx
      obtain ⟨a, _, ha⟩ := mapOpt_mem_ex hm x (List.mem_of_mem_filter (hout ▸ hx))
      exact normalize_bank_row_idem ha
    rw [mapOpt_fixed hfix]
    simp only [Option.map_some', Option.some.injEq]
    refine List.filter_eq_self.mpr ?_
    intro a ha
    exact List.of_mem_filter (hout ▸ ha)

theorem normalize_lender_row_idem {r nr : LenderRow}
    (h : normalize_lender_row r = some nr)
    (hcond : ∀ d, toDatetimeDefault r.created_at = some d → 12 < d.day ∨ d.day = d.month) :
    normalize_lender_row nr = some nr := by
  unfold normalize_lender_row at h
  split at h
  · rename_i d hd
    simp only [Option.some.injEq] at h
    subst h
    have hv := toDatetimeDefault_valid hd
    have hrt := toDatetimeDefault_strftime d hv (hcond d hd)
    simp [normalize_lender_row, hrt, to_numeric_coerce_idem]
  · simp at h

theorem normalize_lender_data_idem {t out : LenderTable}
    (h : normalize_lender_data t = some out)
    (hcond : ∀ r ∈ t.rows, ∀ d,
      toDatetimeDefault r.created_at = some d → 12 < d.day ∨ d.day = d.month) :
    normalize_lender_data out = some out := by
  unfold normalize_lender_data at h ⊢
  cases hm : mapOpt normalize_lender_row t.rows with
  | none => rw [hm] at h; simp at h
  | some rs =>
    rw [hm] at h
    simp only [Option.map_some', Option.some.injEq] at h
    subst h
    have hfix : ∀ x ∈ rs, normalize_lender_row x = some x := by
      intro x hx
      obtain ⟨a, ha, haf⟩ := mapOpt_mem_ex hm x hx
      exact normalize_lender_row_idem haf (hcond a ha)
    rw [mapOpt_fixed hfix]
    rfl

/-- C7 (counterexample): `normalize_lender_data` applied to its own output
does not return it unchanged — the already-normalized `created_at`
`05.03.2024` is re-parsed month-first and becomes `03.05.2024`. -/
theorem C7_lender_not_idempotent_counterexample :
    normalize_lender_data { rows := [rawLender], hasIsmatched := true, hasPOP := true } =
      some { rows := [lenderMatchRow], hasIsmatched := true, hasPOP := true } ∧
    normalize_lender_data { rows := [lenderMatchRow], hasIsmatched := true, hasPOP := true } =
      some { rows := [lenderSwapRow], hasIsmatched := true, hasPOP := true } ∧
    ({ rows := [lenderSwapRow], hasIsmatched := true, hasPOP := true } : LenderTable) ≠
      { rows := [lenderMatchRow], hasIsmatched := true, hasPOP := true } := by
  refine ⟨by decide, by decide, by decide⟩

/-- C7 (amended): `normalize_bank_data` is idempotent on its own output
without restriction; `normalize_lender_data` is idempotent on its own
output provided every parsed `created_at` has day component greater than 12
or equal to its month — otherwise the month-first re-parse swaps day and
month (see the counterexample). -/
theorem C7_normalization_idempotent_amended :
    (∀ rows out : List BankRow,
      normalize_bank_data rows = some out → normalize_bank_data out = some out) ∧
    (∀ t out : LenderTable,
      normalize_lender_data t = some out →
      (∀ r ∈ t.rows, ∀ d,
        toDatetimeDefault r.created_at = some d → 12 < d.day ∨ d.day = d.month) →
      normalize_lender_data out = some out) :=
  ⟨fun _ _ h => normalize_bank_data_idem h,
   fun _ _ h hcond => normalize_lender_data_idem h hcond⟩

/-- Witness for C7 at concrete inputs: the bank side at `rawKeep`, the
lender side at a table whose date has day 25. -/
theorem C7_normalization_idempotent_amended_witness :
    normalize_bank_data [normKeep] = some [normKeep] ∧
    normalize_lender_data lenderSafeOut = some lenderSafeOut := by
  constructor
  · exact C7_normalization_idempotent_amended.1 [rawKeep] [normKeep] (by decide)
  · refine C7_normalization_idempotent_amended.2 lenderSafeTable lenderSafeOut (by decide) ?_
    intro r hr d hd
    have hr' : r = rawLenderSafe := by simpa [lenderSafeTable] using hr
    subst hr'
    have h0 : toDatetimeDefault rawLenderSafe.created_at = some ⟨25, 3, 2024⟩ := by decide
    rw [h0] at hd
    injection hd with hd'
    subst hd'
    left
    decide

theorem mem_le_getLast {rows : List BankRow} (h : sortedByPostingDate rows) {x : BankRow}
    (hx : x ∈ rows) (hne : rows ≠ []) :
    dateKeyStr x.posting_date ≤ dateKeyStr ((rows.getLast hne).posting_date) := by
  unfold sortedByPostingDate at h
  induction rows with
  | nil => simp at hx
  | cons a l ih =>
    cases l with
    | nil =>
      simp at hx
      subst hx
      simp [List.getLast]
    | cons b l' =>
      rw [List.getLast_cons (by simp)]
      rcases List.mem_cons.mp hx with hxa | hxl
      · subst hxa
        exact (List.pairwise_cons.mp h).1 _ (List.getLast_mem _)
      · exact ih (List.pairwise_cons.mp h).2 hxl (by simp)

/-- C6 (counterexample): on an unsorted table whose first row is dated
2 January and whose second row is dated 1 January, `get_bank_stats` reports
`From = "02.01.2024"` although a strictly earlier date is present in the
`Posting Date` column — `From` is not the earliest date. -/
theorem C6_from_not_earliest_counterexample :
    (get_bank_stats [bankRowJan2, bankRowJan1]).map (fun p => p.1.fromDate) =
      Except.ok "02.01.2024" ∧
    bankRowJan1 ∈ [bankRowJan2, bankRowJan1] ∧
    bankRowJan1.posting_date = "01.01.2024" ∧
    dateKeyStr "01.01.2024" < dateKeyStr "02.01.2024" := by
  refine ⟨rfl, by decide, rfl, by decide⟩

/-- C6 (amended): on a non-empty normalized bank table, `From` is the
`Posting Date` of the first row and `To` that of the last row; these equal
the earliest and latest dates present only when the rows are sorted in
ascending date order. -/
theorem C6_bank_stats_from_to_amended (r x : BankRow) (rs : List BankRow)
    (hx : x ∈ r :: rs) :
    ((get_bank_stats (r :: rs)).map (fun p => (p.1.fromDate, p.1.toDate)) =
      Except.ok (r.posting_date, ((r :: rs).getLast (List.cons_ne_nil r rs)).posting_date)) ∧
    (sortedByPostingDate (r :: rs) →
      dateKeyStr r.posting_date ≤ dateKeyStr x.posting_date ∧
      dateKeyStr x.posting_date ≤
        dateKeyStr (((r :: rs).getLast (List.cons_ne_nil r rs)).posting_date)) := by
  constructor
  · rfl
  · intro hsorted
    constructor
    · rcases List.mem_cons.mp hx with hxa | hxl
      · subst hxa
        exact le_refl _
      · exact (List.pairwise_cons.mp hsorted).1 x hxl
    · exact mem_le_getLast hsorted hx (List.cons_ne_nil r rs)

/-- Witness for C6 at a concrete sorted two-row table. -/
theorem C6_bank_stats_from_to_amended_witness :
    ((get_bank_stats [bankRowJan1, bankRowJan2]).map (fun p => (p.1.fromDate, p.1.toDate)) =
      Except.ok (bankRowJan1.posting_date,
        (([bankRowJan1, bankRowJan2] : List BankRow).getLast
          (List.cons_ne_nil bankRowJan1 [bankRowJan2])).posting_date)) ∧
    (dateKeyStr bankRowJan1.posting_date ≤ dateKeyStr bankRowJan2.posting_date ∧
      dateKeyStr bankRowJan2.posting_date ≤
        dateKeyStr ((([bankRowJan1, bankRowJan2] : List BankRow).getLast
          (List.cons_ne_nil bankRowJan1 [bankRowJan2])).posting_date)) := by
  have hmem : bankRowJan2 ∈ [bankRowJan1, bankRowJan2] := by decide
  have hsorted : sortedByPostingDate [bankRowJan1, bankRowJan2] := by
    unfold sortedByPostingDate
    refine List.pairwise_cons.mpr ⟨?_, List.pairwise_singleton _ _⟩
    intro b hb
    have hb' : b = bankRowJan2 := by simpa using hb
    subst hb'
    decide
  exact ⟨(C6_bank_stats_from_to_amended bankRowJan1 bankRowJan2 [bankRowJan2] hmem).1,
    (C6_bank_stats_from_to_amended bankRowJan1 bankRowJan2 [bankRowJan2] hmem).2 hsorted⟩

/-! ### Currency formatting lemmas -/

theorem natDigitsAux_eq (fuel : ℕ) : ∀ n : ℕ, n ≤ fuel → natDigitsAux fuel n = Nat.digits 10 n := by
  induction fuel with
  | zero =>
    intro n hn
    have h0 : n = 0 := by omega
    subst h0
    simp [natDigitsAux]
  | succ f ih =>
    intro n hn
    by_cases hz : n = 0
    · subst hz
      simp [natDigitsAux]
    · simp only [natDigitsAux, if_neg hz]
      rw [ih (n / 10) (by omega),
        Nat.digits_def' (by norm_num : (1:ℕ) < 10) (Nat.pos_of_ne_zero hz)]

theorem natDigitsLSB_eq (n : ℕ) : natDigitsLSB n = Nat.digits 10 n :=
  natDigitsAux_eq n n le_rfl

theorem natDigitChars_all_digit (n : ℕ) : ∀ c ∈ natDigitChars n, c.isDigit = true := by
  intro c hc
  unfold natDigitChars at hc
  by_cases hz : n = 0
  · rw [if_pos hz] at hc
    simp at hc
    subst hc
    rfl
  · rw [if_neg hz, natDigitsLSB_eq] at hc
    obtain ⟨d, hd, hdc⟩ := List.mem_map.mp hc
    have hlt : d < 10 := Nat.digits_lt_base (by norm_num) hd
    rw [← hdc]
    exact digitChar_isDigit hlt

theorem natDigitChars_ne_nil (n : ℕ) : natDigitChars n ≠ [] := by
  unfold natDigitChars
  by_cases hz : n = 0
  · simp [hz]
  · rw [if_neg hz, natDigitsLSB_eq]
    simp [Nat.digits_ne_nil_iff_ne_zero.mpr hz]

theorem comma_not_mem_natDigitChars (n : ℕ) : ',' ∉ natDigitChars n := by
  intro hc
  unfold natDigitChars at hc
  by_cases hz : n = 0
  · rw [if_pos hz] at hc
    simp at hc
  · rw [if_neg hz] at hc
    obtain ⟨d, _, hdc⟩ := List.mem_map.mp hc
    exact digitChar_ne_comma d hdc

theorem groupsOk_insertCommas :
    ∀ ds : List Char, ds ≠ [] → (∀ c ∈ ds, c.isDigit = true) → ',' ∉ ds →
      groupsOk (splitOnChar ',' (insertCommasLSB ds)) = true
  | [], hne, _, _ => absurd rfl hne
  | [a], _, hdig, hnc => by
    rw [show insertCommasLSB [a] = [a] from rfl, splitOnChar_of_not_mem hnc]
    simp [groupsOk, hdig a (by simp)]
  | [a, b], _, hdig, hnc => by
    rw [show insertCommasLSB [a, b] = [a, b] from rfl, splitOnChar_of_not_mem hnc]
    simp [groupsOk, hdig a (by simp), hdig b (by simp)]
  | [a, b, c], _, hdig, hnc => by
    rw [show insertCommasLSB [a, b, c] = [a, b, c] from rfl, splitOnChar_of_not_mem hnc]
    simp [groupsOk, hdig a (by simp), hdig b (by simp), hdig c (by simp)]
  | a :: b :: c :: d :: rest, _, hdig, hnc => by
    have hd' : ∀ x ∈ d :: rest, x.isDigit = true := by
      intro x hx
      exact hdig x (by simp [List.mem_cons] at hx ⊢; tauto)
    have hnc' : ',' ∉ d :: rest := by
      intro hm
      exact hnc (by simp [List.mem_cons] at hm ⊢; tauto)
    have ih := groupsOk_insertCommas (d :: rest) (by simp) hd' hnc'
    have hnc3 : ',' ∉ [a, b, c] := by
      intro hm
      exact hnc (by simp [List.mem_cons] at hm ⊢; tauto)
    have hsp : splitOnChar ',' (insertCommasLSB (a :: b :: c :: d :: rest)) =
        [a, b, c] :: splitOnChar ',' (insertCommasLSB (d :: rest)) := by
      rw [show insertCommasLSB (a :: b :: c :: d :: rest) =
        a :: b :: c :: ',' :: insertCommasLSB (d :: rest) from rfl]
      exact splitOnChar_append hnc3
    rw [hsp]
    cases hgs : splitOnChar ',' (insertCommasLSB (d :: rest)) with
    | nil => exact absurd hgs (splitOnChar_ne_nil _ _)
    | cons g gs =>
      rw [hgs] at ih
      simp [groupsOk, hdig a (by simp), hdig b (by simp), hdig c (by simp), ih]

/-- C8: `format_currency` always produces the fixed prefix `TSh `, an
optional minus sign, a comma-grouped integer part (groups of three digits),
a dot and exactly two decimal digits — independent of any ambient locale
(the function depends on the amount alone) — and in particular formats
`1234.5` as `TSh 1,234.50`. -/
theorem C8_format_currency_shape :
    format_currency (1234.5 : ℚ) = "TSh 1,234.50" ∧
    ∀ q : ℚ, ∃ sign mid : String,
      (sign = "" ∨ sign = "-") ∧
      format_currency q =
        "TSh " ++ sign ++ mid ++ "." ++ String.mk (render2 ((centsHalfEven q).natAbs % 100)) ∧
      (render2 ((centsHalfEven q).natAbs % 100)).length = 2 ∧
      (∀ c ∈ render2 ((centsHalfEven q).natAbs % 100), c.isDigit = true) ∧
      wellGrouped mid.data = true := by
  constructor
  · have hlit : (1234.5 : ℚ) = mkRat 2469 2 := by
      rw [Rat.mkRat_eq_div]
      norm_num
    rw [hlit]
    decide
  · intro q
    refine ⟨if centsHalfEven q < 0 then "-" else "",
      String.mk (insertCommasLSB (natDigitChars ((centsHalfEven q).natAbs / 100))).reverse,
      ?_, rfl, rfl, ?_, ?_⟩
    · by_cases hneg : centsHalfEven q < 0
      · right
        rw [if_pos hneg]
      · left
        rw [if_neg hneg]
    · intro c hc
      have h100 : (centsHalfEven q).natAbs % 100 < 100 := Nat.mod_lt _ (by norm_num)
      simp only [render2, List.mem_cons, List.not_mem_nil, or_false] at hc
      rcases hc with hc | hc
      · rw [hc]; exact digitChar_isDigit (by omega)
      · rw [hc]; exact digitChar_isDigit (by omega)
    · show wellGrouped (String.mk (insertCommasLSB (natDigitChars ((centsHalfEven q).natAbs / 100))).reverse).data = true
      unfold wellGrouped
      rw [show (String.mk (insertCommasLSB (natDigitChars ((centsHalfEven q).natAbs / 100))).reverse).data
          = (insertCommasLSB (natDigitChars ((centsHalfEven q).natAbs / 100))).reverse from rfl,
        List.reverse_reverse]
      exact groupsOk_insertCommas _ (natDigitChars_ne_nil _) (natDigitChars_all_digit _)
        (comma_not_mem_natDigitChars _)

/-! ### Sum lemmas -/

theorem qAdd_eq (a b : ℚ) : qAdd a b = a + b := by
  have ha : ((a.den : ℚ)) ≠ 0 := Nat.cast_ne_zero.mpr a.den_nz
  have hb : ((b.den : ℚ)) ≠ 0 := Nat.cast_ne_zero.mpr b.den_nz
  unfold qAdd
  rw [Rat.mkRat_eq_div]
  conv_rhs => rw [← Rat.num_div_den a, ← Rat.num_div_den b]
  rw [div_add_div _ _ ha hb]
  push_cast
  ring_nf

theorem qSum_eq_sum (l : List ℚ) : qSum l = l.sum := by
  induction l with
  | nil => rfl
  | cons a t ih =>
    rw [show qSum (a :: t) = qAdd a (qSum t) from rfl, qAdd_eq, ih, List.sum_cons]

theorem sum_filter_credit (rows : List LenderRow) :
    qSum ((rows.filter (fun r => r.credit ≠ PyVal.nan)).map (fun r => cellQ r.credit)) =
      ((rows.map (fun r => cellQ r.credit)).sum) := by
  rw [qSum_eq_sum]
  induction rows with
  | nil => rfl
  | cons a t ih =>
    by_cases hna : a.credit = PyVal.nan
    · rw [List.map_cons, List.sum_cons, show cellQ a.credit = 0 from by rw [hna]; rfl]
      rw [List.filter_cons_of_neg (by simp [hna])]
      rw [ih]
      ring
    · rw [List.map_cons, List.sum_cons, List.filter_cons_of_pos (by simp [hna]),
        List.map_cons, List.sum_cons, ih]

theorem sum_filter_debit (rows : List LenderRow) :
    qSum ((rows.filter (fun r => r.debit ≠ PyVal.nan)).map (fun r => cellQ r.debit)) =
      ((rows.map (fun r => cellQ r.debit)).sum) := by
  rw [qSum_eq_sum]
  induction rows with
  | nil => rfl
  | cons a t ih =>
    by_cases hna : a.debit = PyVal.nan
    · rw [List.map_cons, List.sum_cons, show cellQ a.debit = 0 from by rw [hna]; rfl]
      rw [List.filter_cons_of_neg (by simp [hna])]
      rw [ih]
      ring
    · rw [List.map_cons, List.sum_cons, List.filter_cons_of_pos (by simp [hna]),
        List.map_cons, List.sum_cons, ih]

theorem mapOpt_forall₂ {f : α → Option β} {l : List α} {out : List β}
    (h : mapOpt f l = some out) : List.Forall₂ (fun a b => f a = some b) l out := by
  induction l generalizing out with
  | nil =>
    simp [mapOpt] at h
    subst h
    exact List.Forall₂.nil
  | cons a l ih =>
    simp only [mapOpt] at h
    cases hfa : f a with
    | none => rw [hfa] at h; simp at h
    | some b =>
      rw [hfa] at h
      cases hml : mapOpt f l with
      | none => rw [hml] at h; simp at h
      | some bs =>
        rw [hml] at h
        simp at h
        subst h
        exact List.Forall₂.cons hfa (ih hml)

theorem normalize_lender_row_credit_debit {r o : LenderRow}
    (h : normalize_lender_row r = some o) :
    o.credit = to_numeric_coerce r.credit ∧ o.debit = to_numeric_coerce r.debit := by
  unfold normalize_lender_row at h
  split at h
  · simp only [Option.some.injEq] at h
    subst h
    exact ⟨rfl, rfl⟩
  · simp at h

/-- C9: lender-side numeric coercion never raises — each normalized row's
credit/debit is exactly `to_numeric_coerce` of the raw cell, with
unparsable cells becoming NaN — and the lender statistics' credit/debit
totals equal the null-as-zero sums over all rows, so nulls contribute zero
instead of erroring. -/
theorem C9_lender_coerce_and_sums (raws out t : LenderTable)
    (hn : normalize_lender_data raws = some out)
    (hI : t.hasIsmatched = true) (hP : t.hasPOP = true) :
    List.Forall₂
      (fun r o => o.credit = to_numeric_coerce r.credit ∧ o.debit = to_numeric_coerce r.debit)
      raws.rows out.rows ∧
    (get_lender_stats t).map (fun p => p.2.credit_amount) =
      Except.ok (format_currency ((t.rows.map (fun r => cellQ r.credit)).sum)) ∧
    (get_lender_stats t).map (fun p => p.2.debit_amount) =
      Except.ok (format_currency ((t.rows.map (fun r => cellQ r.debit)).sum)) := by
  refine ⟨?_, ?_, ?_⟩
  · unfold normalize_lender_data at hn
    cases hm : mapOpt normalize_lender_row raws.rows with
    | none => rw [hm] at hn; simp at hn
    | some rs =>
      rw [hm] at hn
      simp only [Option.map_some', Option.some.injEq] at hn
      subst hn
      exact (mapOpt_forall₂ hm).imp (fun a b hab => normalize_lender_row_credit_debit hab)
  · unfold get_lender_stats
    rw [if_neg (by simp [hI]), if_neg (by simp [hP])]
    rw [sum_filter_credit t.rows]
    rfl
  · unfold get_lender_stats
    rw [if_neg (by simp [hI]), if_neg (by simp [hP])]
    rw [sum_filter_debit t.rows]
    rfl

/-- Witness for C9 at a concrete one-row lender table. -/
theorem C9_lender_coerce_and_sums_witness :
    List.Forall₂
      (fun r o => o.credit = to_numeric_coerce r.credit ∧ o.debit = to_numeric_coerce r.debit)
      lenderSafeTable.rows lenderSafeOut.rows ∧
    (get_lender_stats lenderSafeOut).map (fun p => p.2.credit_amount) =
      Except.ok (format_currency ((lenderSafeOut.rows.map (fun r => cellQ r.credit)).sum)) ∧
    (get_lender_stats lenderSafeOut).map (fun p => p.2.debit_amount) =
      Except.ok (format_currency ((lenderSafeOut.rows.map (fun r => cellQ r.debit)).sum)) :=
  C9_lender_coerce_and_sums lenderSafeTable lenderSafeOut lenderSafeOut (by decide) rfl rfl
